import Mathlib

/-!
Verification development for `sshpick`, an SSH-host picker: a line-oriented
SSH-config parser (`parseSSHConfig`, `extractLocalForwardPort`), a regex
filter over host records (`filterHostsRegex`), and the filter-editing part
of the interactive selection engine (`applyFilter`, `updateFilter`).

The Go source (`main.go`) is shallowly embedded here.  Go strings are Lean
`String`s; the byte-index manipulations of the Go `strings` package are
modelled on `List Char` (the splits performed by the source cut exactly at
whole characters, so char-level splitting yields the same strings).  The
two external collaborators are abstracted as parameters:

* DNS/IP resolution (`net.ParseIP` / `net.LookupIP`, a best-effort I/O
  edge) is a parameter `resolve : String → String` mapping a hostname to
  the resolved address (the empty string on failure);
* the Go `regexp` engine is a parameter `compile : String → Option Matcher`
  where a `Matcher` is the `MatchString` test of a compiled pattern, and
  `none` models a compile error.
-/

/-- The whitespace test used by Go `strings.TrimSpace` / `strings.Fields`
(ASCII part of `unicode.IsSpace`). -/
def isGoSpace (c : Char) : Bool :=
  c == ' ' || c == '\t' || c == '\n' || c == '\x0b' || c == '\x0c' || c == '\r'

/-- Go `strings.TrimSpace` on a character list: drop whitespace from both ends. -/
def trimChars (s : List Char) : List Char :=
  ((s.dropWhile isGoSpace).reverse.dropWhile isGoSpace).reverse

/-- Go `strings.TrimSpace` on a `String`. -/
def goTrim (s : String) : String :=
  String.mk (trimChars s.toList)

/-- Accumulator for `goFields`: `cur` is the (reversed) token being built. -/
def fieldsAux : List Char → List Char → List (List Char)
  | [], cur => if cur = [] then [] else [cur.reverse]
  | c :: rest, cur =>
    if isGoSpace c then
      if cur = [] then fieldsAux rest []
      else cur.reverse :: fieldsAux rest []
    else fieldsAux rest (c :: cur)

/-- Go `strings.Fields`: split around runs of whitespace, no empty tokens. -/
def goFields (line : List Char) : List (List Char) :=
  fieldsAux line []

/-- ASCII lower-casing of one character (the directive keys lower-cased by
`strings.ToLower` in the source are ASCII). -/
def lowerChar (c : Char) : Char :=
  if 'A' ≤ c ∧ c ≤ 'Z' then Char.ofNat (c.toNat + 32) else c

/-- Go `strings.ContainsAny(a, "*?!")` from the wildcard-alias check. -/
def containsWild (a : String) : Bool :=
  a.toList.any (fun c => c == '*' || c == '?' || c == '!')

/-- Split a character list at the first `'#'`: `some (pre, post)` when the
list is `pre ++ '#' :: post` with no `'#'` in `pre` (the Go source computes
`strings.Index(line, "#")` and slices around it). -/
def splitAtFirstHash : List Char → Option (List Char × List Char)
  | [] => none
  | c :: rest =>
    if c = '#' then some ([], rest)
    else
      match splitAtFirstHash rest with
      | some (pre, post) => some (c :: pre, post)
      | none => none

/-- The suffix after the first occurrence of `"]:"`, when one exists
(Go `strings.Index(arg, "]:")` plus slicing `arg[idx+2:]`). -/
def afterBrColon : List Char → Option (List Char)
  | [] => none
  | [_] => none
  | c1 :: c2 :: rest =>
    if c1 = ']' ∧ c2 = ':' then some rest else afterBrColon (c2 :: rest)

/-- Whether `"]:"` occurs in the list (used to state first-occurrence facts
about `afterBrColon`). -/
def hasBrColon : List Char → Bool
  | [] => false
  | [_] => false
  | c1 :: c2 :: rest =>
    if c1 = ']' ∧ c2 = ':' then true else hasBrColon (c2 :: rest)

/-- The suffix after the last occurrence of `':'`, when one exists
(Go `strings.LastIndex(arg, ":")` plus slicing `arg[idx+1:]`). -/
def afterLastColon : List Char → Option (List Char)
  | [] => none
  | c :: rest =>
    match afterLastColon rest with
    | some r => some r
    | none => if c = ':' then some rest else none

/-- The `strings.LastIndex(arg, ":")` fall-through of
`extractLocalForwardPort`: text after the last `':'` when that leaves at
least one character, otherwise the whole (trimmed) argument. -/
def extractLastColon (a : List Char) : String :=
  match afterLastColon a with
  | some r => if r ≠ [] then String.mk (trimChars r) else String.mk a
  | none => String.mk a

/-- `extractLocalForwardPort` from `main.go`: trim; if the argument contains
`"]:"` followed by at least one character, the trimmed text after it; else
if it contains a `':'` followed by at least one character, the trimmed text
after the last `':'`; else the whole trimmed argument (empty input gives `""`). -/
def extractLocalForwardPort (arg : String) : String :=
  let a := trimChars arg.toList
  if a = [] then ""
  else
    match afterBrColon a with
    | some r => if r ≠ [] then String.mk (trimChars r) else extractLastColon a
    | none => extractLastColon a

/-- The host record `sshHost` from `main.go` (same field names). -/
structure sshHost where
  Alias : String
  Hostname : String
  IP : String
  User : String
  Port : String
  LocalForwards : List String
  Notes : List String
  SourcePath : String
  SourceLine : Nat
deriving DecidableEq

/-- The per-block accumulator of `parseSSHConfig`: emitted hosts plus the
pending aliases, key/value map (only `hostname`/`user`/`port` keys are ever
written), local-forward ports, notes and the opening `Host` line number. -/
structure ParseAcc where
  hosts : List sshHost
  aliases : List String
  fields : List (String × String)
  localForwards : List String
  notes : List String
  hostLine : Nat
deriving DecidableEq

/-- The `get` helper of `parseSSHConfig`: read a field of the block's
key/value map or `""`. -/
def getField (fs : List (String × String)) (k : String) : String :=
  match fs.find? (fun p => p.1 = k) with
  | some p => p.2
  | none => ""

/-- Go map assignment `fields[key] = value`: the new binding shadows any
earlier one for the same key. -/
def setField (fs : List (String × String)) (k v : String) : List (String × String) :=
  (k, v) :: fs.filter (fun p => p.1 ≠ k)

/-- The record built inside the commit loop of `parseSSHConfig` for one
alias: the block's `hostname`/`user`/`port` fields, snapshot copies of the
local-forward and note lists, the source path and the opening line number.
`resolve` abstracts the `net.ParseIP` / `net.LookupIP` best-effort
resolution attempted when `Hostname` is non-empty (empty on failure). -/
def commitRecord (resolve : String → String) (path : String) (acc : ParseAcc)
    (a : String) : sshHost :=
  { Alias := a
    Hostname := getField acc.fields "hostname"
    IP := if getField acc.fields "hostname" ≠ "" then resolve (getField acc.fields "hostname")
          else ""
    User := getField acc.fields "user"
    Port := getField acc.fields "port"
    LocalForwards := acc.localForwards
    Notes := acc.notes
    SourcePath := path
    SourceLine := acc.hostLine }

/-- The `commit` closure of `parseSSHConfig`: with no pending aliases it
returns the accumulator unchanged (without resetting anything); otherwise it
materializes one record per non-wildcard alias and resets every per-block
accumulator. -/
def commitBlock (resolve : String → String) (path : String) (acc : ParseAcc) : ParseAcc :=
  if acc.aliases = [] then acc
  else
    { hosts := acc.hosts ++
        (acc.aliases.filterMap fun a =>
          if containsWild a then none else some (commitRecord resolve path acc a)),
      aliases := [], fields := [], localForwards := [], notes := [], hostLine := 0 }

/-- The three `if note != "" { notes = append(notes, note) }` sites of the
scan loop: append a non-empty note, keep the accumulator otherwise. -/
def noteAppend (acc : ParseAcc) (note : List Char) : ParseAcc :=
  if note = [] then acc else { acc with notes := acc.notes ++ [String.mk note] }

/-- The directive part of the scan-loop body (after blank/comment handling):
tokenize, ignore lines with fewer than two tokens, then dispatch on the
lower-cased key exactly as the `switch` in `parseSSHConfig` does. -/
def processDirective (resolve : String → String) (path : String) (acc : ParseAcc)
    (lineNo : Nat) (line : List Char) : ParseAcc :=
  match goFields line with
  | [] => acc
  | [_] => acc
  | p0 :: p1 :: rest =>
    let key := String.mk (p0.map lowerChar)
    let value := String.mk (trimChars (line.drop p0.length))
    if key = "host" then
      { commitBlock resolve path acc with
        aliases := (p1 :: rest).map String.mk, hostLine := lineNo }
    else if key = "hostname" ∨ key = "user" ∨ key = "port" then
      { acc with fields := setField acc.fields key value }
    else if key = "localforward" then
      if extractLocalForwardPort (String.mk (trimChars p1)) = "" then acc
      else { acc with localForwards :=
              acc.localForwards ++ [extractLocalForwardPort (String.mk (trimChars p1))] }
    else acc

/-- One iteration of the scan loop of `parseSSHConfig`: trim the raw line,
skip blanks, treat a leading `'#'` as a standalone comment, otherwise split
at the first `'#'` into directive and trailing-comment parts and process the
directive part (if any). -/
def processLine (resolve : String → String) (path : String) (acc : ParseAcc)
    (lineNo : Nat) (raw : String) : ParseAcc :=
  if trimChars raw.toList = [] then acc
  else if (trimChars raw.toList).head? = some '#' then
    noteAppend acc (trimChars (trimChars raw.toList).tail)
  else
    match splitAtFirstHash (trimChars raw.toList) with
    | some (pre, post) =>
      if trimChars pre = [] then noteAppend acc (trimChars post)
      else processDirective resolve path (noteAppend acc (trimChars post)) lineNo (trimChars pre)
    | none => processDirective resolve path acc lineNo (trimChars raw.toList)

/-- The empty accumulator `parseSSHConfig` starts from. -/
def initAcc : ParseAcc :=
  { hosts := [], aliases := [], fields := [], localForwards := [], notes := [], hostLine := 0 }

/-- `parseSSHConfig` from `main.go`, over the file's lines (the `bufio`
scanner and I/O errors are outside the embedding): fold the scan loop over
the 1-numbered lines, then commit the final pending block. -/
def parseSSHConfig (resolve : String → String) (path : String) (lines : List String) :
    List sshHost :=
  (commitBlock resolve path
    (lines.enum.foldl (fun acc p => processLine resolve path acc (p.1 + 1) p.2) initAcc)).hosts

/-- The `MatchString` test of a compiled Go regex (the `regexp` engine is an
external collaborator; a compiled pattern is abstracted by its match test). -/
def Matcher : Type := String → Bool

/-- Result of `filterHostsRegex` in `main.go`: `(hosts, nil)` or `(nil, err)`
from a failed `regexp.Compile`. -/
inductive FilterResult where
  | ok (hosts : List sshHost)
  | patternError
deriving DecidableEq

/-- The host-match test inside the loop of `filterHostsRegex`: the pattern
matches the alias, hostname, resolved address, user or port, or (checked in
two follow-up loops in the source, equivalent to this short-circuit
disjunction) some local-forward entry or some note. -/
def hostMatches (re : Matcher) (h : sshHost) : Bool :=
  re h.Alias || re h.Hostname || re h.IP || re h.User || re h.Port
    || h.LocalForwards.any re || h.Notes.any re

/-- `filterHostsRegex` from `main.go`: trim the pattern; an empty trimmed
pattern returns the input unchanged; otherwise compile it (`compile` models
`regexp.Compile`, `none` a compile error) and keep the matching hosts in
order. -/
def filterHostsRegex (compile : String → Option Matcher) (all : List sshHost)
    (pattern : String) : FilterResult :=
  if goTrim pattern = "" then .ok all
  else
    match compile (goTrim pattern) with
    | none => .patternError
    | some re => .ok (all.filter (fun h => hostMatches re h))

/-- The filter-relevant fields of the `model` struct in `main.go` (the
display-only fields `width`/`height`/`ready`/`showNotes`/styling and the
terminal `chosen`/`selectedHost` outcome are not touched by the transitions
modelled here). -/
structure Model where
  allHosts : List sshHost
  hosts : List sshHost
  cursor : Int
  filterActive : Bool
  filterQuery : String
  lastValidRegex : String
  filterErr : Bool
deriving DecidableEq

/-- `model.applyFilter` from `main.go`: on a pattern error only `filterErr`
is set (hosts and cursor untouched); on success the visible list is replaced
and the cursor clamped — `0` on an empty list, `length - 1` when it was past
the end, unchanged otherwise. -/
def applyFilter (compile : String → Option Matcher) (m : Model) (pattern : String) : Model :=
  match filterHostsRegex compile m.allHosts pattern with
  | .patternError => { m with filterErr := true }
  | .ok filtered =>
    if filtered.length = 0 then
      { m with filterErr := false, hosts := filtered, cursor := 0 }
    else if m.cursor ≥ (filtered.length : Int) then
      { m with filterErr := false, hosts := filtered, cursor := (filtered.length : Int) - 1 }
    else
      { m with filterErr := false, hosts := filtered }

/-- Go `len` of a string: its UTF-8 byte size (the filter-query cap in
`model.Update` counts bytes). -/
def utf8Len (s : String) : Nat :=
  s.toList.foldl (fun n c => n + c.utf8Size) 0

/-- Key events handled by the `filterActive` branch of `model.Update`
(`runes` carries the text of a `tea.KeyRunes` message, possibly several
characters; the quit keys end the session and are outside the model). -/
inductive FilterKey where
  | esc
  | enter
  | backspace
  | runes (s : String)
  | other
deriving DecidableEq

/-- The `filterActive` branch of `model.Update` in `main.go`:
escape reverts to the last committed pattern and leaves filter mode; enter
applies the query and commits it unless a pattern error occurred; backspace
drops the last character of a non-empty query and re-applies; a rune message
is appended only while the query is under 256 bytes, then the filter is
re-applied; other keys do nothing. -/
def updateFilter (compile : String → Option Matcher) (m : Model) (k : FilterKey) : Model :=
  match k with
  | .esc =>
    applyFilter compile
      { m with filterActive := false, filterErr := false, filterQuery := m.lastValidRegex }
      m.lastValidRegex
  | .enter =>
    let m' := applyFilter compile m m.filterQuery
    if m'.filterErr then m'
    else { m' with lastValidRegex := m.filterQuery, filterActive := false }
  | .backspace =>
    if m.filterQuery ≠ "" then
      applyFilter compile
        { m with filterQuery := String.mk m.filterQuery.toList.dropLast }
        (String.mk m.filterQuery.toList.dropLast)
    else m
  | .runes s =>
    if utf8Len m.filterQuery < 256 then
      applyFilter compile { m with filterQuery := m.filterQuery ++ s } (m.filterQuery ++ s)
    else m
  | .other => m

/-- Concrete resolver for closed evaluations: every lookup fails (the
best-effort resolution leaves the address empty). -/
def noResolve : String → String := fun _ => ""

/-- Concrete regex engine for closed evaluations: every pattern fails to
compile. -/
def cfNone : String → Option Matcher := fun _ => none

/-- Concrete matcher: matches exactly the strings "a1" and "a2". -/
def matchA12 : Matcher := fun s => s == "a1" || s == "a2"

/-- Concrete regex engine: every pattern compiles to `matchA12`. -/
def cfA12 : String → Option Matcher := fun _ => some matchA12

/-- A host record with the given alias and every other field empty. -/
def mkHost (a : String) : sshHost :=
  { Alias := a, Hostname := "", IP := "", User := "", Port := "",
    LocalForwards := [], Notes := [], SourcePath := "", SourceLine := 0 }

/-- Five hosts with aliases a1..a5. -/
def hostsW5 : List sshHost :=
  [mkHost "a1", mkHost "a2", mkHost "a3", mkHost "a4", mkHost "a5"]

/-- Engine state showing all five hosts with the cursor on the last row. -/
def mW5 : Model :=
  { allHosts := hostsW5, hosts := hostsW5, cursor := 4, filterActive := false,
    filterQuery := "", lastValidRegex := "", filterErr := false }

/-- Engine state in filter-editing mode with the invalid pattern "(" typed. -/
def mC5 : Model :=
  { allHosts := [mkHost "a1"], hosts := [mkHost "a1"], cursor := 0, filterActive := true,
    filterQuery := "(", lastValidRegex := "", filterErr := false }

/-- Engine state whose filter query holds 255 one-byte characters. -/
def mQ255 : Model :=
  { allHosts := [], hosts := [], cursor := 0, filterActive := true,
    filterQuery := String.mk (List.replicate 255 'a'), lastValidRegex := "", filterErr := false }

/-- Engine state whose filter query holds 128 two-byte characters
(256 bytes, 128 characters). -/
def mQ128 : Model :=
  { allHosts := [], hosts := [], cursor := 0, filterActive := true,
    filterQuery := String.mk (List.replicate 128 'é'), lastValidRegex := "", filterErr := false }

/-- Engine state in filter-editing mode with an empty query. -/
def mQ0 : Model :=
  { allHosts := [mkHost "a1"], hosts := [mkHost "a1"], cursor := 0, filterActive := true,
    filterQuery := "", lastValidRegex := "", filterErr := false }

/-- A pending block whose only alias is the wildcard "*", with accumulated
directives and a note. -/
def accW7 : ParseAcc :=
  { hosts := [], aliases := ["*"], fields := [("hostname", "x")],
    localForwards := ["8080"], notes := ["n"], hostLine := 3 }

/-- A preamble accumulator: directives and a note collected, no Host line yet. -/
def accW10 : ParseAcc :=
  { hosts := [], aliases := [], fields := [("port", "9")],
    localForwards := ["1"], notes := ["n"], hostLine := 0 }

lemma afterBrColon_append (r : List Char) :
    ∀ pre : List Char, hasBrColon pre = false →
      afterBrColon (pre ++ ']' :: ':' :: r) = some r := by
  intro pre
  induction pre with
  | nil => intro _; simp [afterBrColon]
  | cons c pre' ih =>
    intro h
    cases pre' with
    | nil =>
      simp only [List.cons_append, List.nil_append, afterBrColon]
      rw [if_neg (by simp), if_pos (by simp)]
    | cons c2 pre'' =>
      simp only [hasBrColon] at h
      simp only [List.cons_append, afterBrColon]
      rw [if_neg ?_]
      · exact ih (by split at h <;> simp_all)
      · intro hc
        rw [if_pos hc] at h
        simp at h

lemma afterLastColon_eq_none_iff (l : List Char) :
    afterLastColon l = none ↔ ':' ∉ l := by
  induction l with
  | nil => simp [afterLastColon]
  | cons c rest ih =>
    simp only [afterLastColon, List.mem_cons]
    cases hrest : afterLastColon rest with
    | some r => simp [← ih, hrest]
    | none =>
      rw [ih] at hrest
      constructor
      · intro h
        split at h
        · exact absurd h (by simp)
        · rintro (rfl | hr)
          · simp_all
          · exact hrest hr
      · intro h
        rw [if_neg ?_]
        intro hc
        exact h (Or.inl hc.symm)

lemma afterLastColon_append (r : List Char) (hr : ':' ∉ r) :
    ∀ pre : List Char, afterLastColon (pre ++ ':' :: r) = some r := by
  intro pre
  induction pre with
  | nil =>
    simp only [List.nil_append, afterLastColon]
    rw [(afterLastColon_eq_none_iff r).mpr hr]
    simp
  | cons c pre' ih =>
    simp only [List.cons_append, afterLastColon, List.append_eq, ih]

lemma afterLastColon_some (a : List Char) :
    ∀ r : List Char, afterLastColon a = some r →
      ∃ pre, a = pre ++ ':' :: r ∧ ':' ∉ r := by
  induction a with
  | nil => intro r h; simp [afterLastColon] at h
  | cons c rest ih =>
    intro r h
    simp only [afterLastColon] at h
    cases hrest : afterLastColon rest with
    | some r2 =>
      rw [hrest] at h
      have hr2 : r2 = r := by simpa using h
      subst hr2
      obtain ⟨pre, hpre, hnr⟩ := ih r2 hrest
      exact ⟨c :: pre, by simp [hpre], hnr⟩
    | none =>
      rw [hrest] at h
      by_cases hc : c = ':'
      · rw [if_pos hc] at h
        have hrr : rest = r := by simpa using h
        subst hrr
        subst hc
        exact ⟨[], rfl, (afterLastColon_eq_none_iff rest).mp hrest⟩
      · rw [if_neg hc] at h
        simp at h

lemma noteAppend_hosts (acc : ParseAcc) (c : List Char) :
    (noteAppend acc c).hosts = acc.hosts := by
  unfold noteAppend; split <;> rfl

lemma mem_commitBlock_hosts (resolve : String → String) (path : String) (acc : ParseAcc)
    (h : sshHost) (hm : h ∈ (commitBlock resolve path acc).hosts) :
    h ∈ acc.hosts ∨ containsWild h.Alias = false := by
  simp only [commitBlock] at hm
  split at hm
  · exact Or.inl hm
  · simp only [List.mem_append, List.mem_filterMap] at hm
    rcases hm with hm | ⟨a, _, ha⟩
    · exact Or.inl hm
    · right
      by_cases hw : containsWild a = true
      · rw [if_pos hw] at ha; cases ha
      · rw [if_neg hw] at ha
        injection ha with ha2
        subst ha2
        simpa using hw

lemma mem_processDirective_hosts (resolve : String → String) (path : String) (acc : ParseAcc)
    (lineNo : Nat) (line : List Char) (h : sshHost)
    (hm : h ∈ (processDirective resolve path acc lineNo line).hosts) :
    h ∈ acc.hosts ∨ containsWild h.Alias = false := by
  simp only [processDirective] at hm
  split at hm
  · exact Or.inl hm
  · exact Or.inl hm
  · split at hm
    · exact mem_commitBlock_hosts _ _ _ _ hm
    · split at hm
      · exact Or.inl hm
      · split at hm
        · split at hm
          · exact Or.inl hm
          · exact Or.inl hm
        · exact Or.inl hm

lemma mem_processLine_hosts (resolve : String → String) (path : String) (acc : ParseAcc)
    (lineNo : Nat) (raw : String) (h : sshHost)
    (hm : h ∈ (processLine resolve path acc lineNo raw).hosts) :
    h ∈ acc.hosts ∨ containsWild h.Alias = false := by
  simp only [processLine] at hm
  split at hm
  · exact Or.inl hm
  · split at hm
    · rw [noteAppend_hosts] at hm; exact Or.inl hm
    · split at hm
      · split at hm
        · rw [noteAppend_hosts] at hm; exact Or.inl hm
        · rcases mem_processDirective_hosts _ _ _ _ _ _ hm with h1 | h2
          · rw [noteAppend_hosts] at h1; exact Or.inl h1
          · exact Or.inr h2
      · exact mem_processDirective_hosts _ _ _ _ _ _ hm

lemma mem_parse_foldl (resolve : String → String) (path : String) :
    ∀ (ps : List (Nat × String)) (acc : ParseAcc) (h : sshHost),
      h ∈ (ps.foldl (fun a p => processLine resolve path a (p.1 + 1) p.2) acc).hosts →
      h ∈ acc.hosts ∨ containsWild h.Alias = false := by
  intro ps
  induction ps with
  | nil => intro acc h hm; exact Or.inl hm
  | cons p ps ih =>
    intro acc h hm
    rcases ih _ _ hm with h1 | h2
    · exact mem_processLine_hosts _ _ _ _ _ _ h1
    · exact Or.inr h2

lemma applyFilter_filterQuery (compile : String → Option Matcher) (m : Model) (p : String) :
    (applyFilter compile m p).filterQuery = m.filterQuery := by
  unfold applyFilter
  split <;> first | rfl | (split <;> first | rfl | (split <;> rfl))

lemma filterHostsRegex_compileFail (compile : String → Option Matcher) (all : List sshHost)
    (pattern : String) (hq : goTrim pattern ≠ "") (hc : compile (goTrim pattern) = none) :
    filterHostsRegex compile all pattern = .patternError := by
  unfold filterHostsRegex
  rw [if_neg hq, hc]

lemma applyFilter_patternError (compile : String → Option Matcher) (m : Model) (pattern : String)
    (hfr : filterHostsRegex compile m.allHosts pattern = .patternError) :
    applyFilter compile m pattern = { m with filterErr := true } := by
  unfold applyFilter
  rw [hfr]

lemma commitBlock_allWild (resolve : String → String) (path : String) (acc : ParseAcc)
    (h1 : acc.aliases ≠ []) (h2 : ∀ a ∈ acc.aliases, containsWild a = true) :
    commitBlock resolve path acc =
      { hosts := acc.hosts, aliases := [], fields := [],
        localForwards := [], notes := [], hostLine := 0 } := by
  unfold commitBlock
  rw [if_neg h1]
  have hfm : (acc.aliases.filterMap fun a =>
      if containsWild a then none else some (commitRecord resolve path acc a)) = [] :=
    List.filterMap_eq_nil_iff.mpr fun a ha => by rw [if_pos (h2 a ha)]
  rw [hfm, List.append_nil]

/-- C9: filtering with a pattern that is empty after trimming returns the
host list unchanged, without error (identity law). -/
theorem C9_empty_pattern_identity (compile : String → Option Matcher)
    (hosts : List sshHost) (pattern : String) (h : goTrim pattern = "") :
    filterHostsRegex compile hosts pattern = .ok hosts := by
  unfold filterHostsRegex
  rw [if_pos h]

theorem C9_empty_pattern_identity_witness :
    filterHostsRegex cfNone hostsW5 "  " = .ok hostsW5 :=
  C9_empty_pattern_identity cfNone hostsW5 "  " (by decide)

/-- C4: for every host list and non-empty pattern that compiles, the filter
returns the order-preserving sublist of exactly those hosts the pattern
matches in at least one searched field: alias, hostname, resolved address,
user, port, some local-forward entry, or some note. -/
theorem C4_filter_characterization (compile : String → Option Matcher)
    (hosts : List sshHost) (pattern : String) (re : Matcher)
    (h1 : goTrim pattern ≠ "") (h2 : compile (goTrim pattern) = some re) :
    ∃ out, filterHostsRegex compile hosts pattern = .ok out ∧
      List.Sublist out hosts ∧
      ∀ h, h ∈ out ↔ h ∈ hosts ∧
        (re h.Alias = true ∨ re h.Hostname = true ∨ re h.IP = true ∨
         re h.User = true ∨ re h.Port = true ∨
         (∃ lf ∈ h.LocalForwards, re lf = true) ∨
         (∃ nt ∈ h.Notes, re nt = true)) := by
  refine ⟨hosts.filter (fun h => hostMatches re h), ?_, List.filter_sublist _, ?_⟩
  · unfold filterHostsRegex
    rw [if_neg h1, h2]
  · intro h
    rw [List.mem_filter]
    simp [hostMatches, List.any_eq_true, or_assoc]

theorem C4_filter_characterization_witness :
    ∃ out, filterHostsRegex cfA12 hostsW5 "x" = .ok out ∧
      List.Sublist out hostsW5 ∧
      ∀ h, h ∈ out ↔ h ∈ hostsW5 ∧
        (matchA12 h.Alias = true ∨ matchA12 h.Hostname = true ∨ matchA12 h.IP = true ∨
         matchA12 h.User = true ∨ matchA12 h.Port = true ∨
         (∃ lf ∈ h.LocalForwards, matchA12 lf = true) ∨
         (∃ nt ∈ h.Notes, matchA12 nt = true)) :=
  C4_filter_characterization cfA12 hostsW5 "x" matchA12 (by decide) rfl

/-- C6: after a successful filter recompute the visible list is the filter
result and the cursor is clamped: 0 on an empty list, new length − 1 when it
was ≥ the new length, unchanged otherwise. -/
theorem C6_cursor_clamping (compile : String → Option Matcher) (m : Model)
    (pattern : String) (filtered : List sshHost)
    (h : filterHostsRegex compile m.allHosts pattern = .ok filtered) :
    (applyFilter compile m pattern).hosts = filtered ∧
    (filtered = [] → (applyFilter compile m pattern).cursor = 0) ∧
    (filtered ≠ [] → m.cursor ≥ (filtered.length : Int) →
      (applyFilter compile m pattern).cursor = (filtered.length : Int) - 1) ∧
    (filtered ≠ [] → m.cursor < (filtered.length : Int) →
      (applyFilter compile m pattern).cursor = m.cursor) := by
  unfold applyFilter
  rw [h]
  dsimp only
  refine ⟨?_, ?_, ?_, ?_⟩
  · split_ifs <;> rfl
  · intro hf
    subst hf
    simp
  · intro hne hge
    rw [if_neg (by simpa [List.length_eq_zero] using hne), if_pos hge]
  · intro hne hlt
    rw [if_neg (by simpa [List.length_eq_zero] using hne), if_neg (by omega)]

theorem C6_cursor_clamping_witness :
    filterHostsRegex cfA12 mW5.allHosts "12" = .ok [mkHost "a1", mkHost "a2"] ∧
    mW5.hosts.length = 5 ∧ mW5.cursor = 4 ∧
    (applyFilter cfA12 mW5 "12").cursor = 1 := by
  have h : filterHostsRegex cfA12 mW5.allHosts "12" = .ok [mkHost "a1", mkHost "a2"] := by
    decide
  refine ⟨h, rfl, rfl, ?_⟩
  have h2 := (C6_cursor_clamping cfA12 mW5 "12" [mkHost "a1", mkHost "a2"] h).2.2.1
    (by decide) (by decide)
  simpa using h2

/-- C5: a pattern that fails to compile yields a pattern error and no
partial result, and confirming it in filter-editing mode leaves the visible
list, cursor and committed filter untouched, stays in filter-editing mode
with the attempted query retained, and surfaces the error. -/
theorem C5_pattern_error_state (compile : String → Option Matcher) (m : Model)
    (hq : goTrim m.filterQuery ≠ "") (hc : compile (goTrim m.filterQuery) = none)
    (hm : m.filterActive = true) :
    filterHostsRegex compile m.allHosts m.filterQuery = .patternError ∧
    (updateFilter compile m .enter).hosts = m.hosts ∧
    (updateFilter compile m .enter).cursor = m.cursor ∧
    (updateFilter compile m .enter).lastValidRegex = m.lastValidRegex ∧
    (updateFilter compile m .enter).filterActive = true ∧
    (updateFilter compile m .enter).filterQuery = m.filterQuery ∧
    (updateFilter compile m .enter).filterErr = true := by
  have hfr := filterHostsRegex_compileFail compile m.allHosts m.filterQuery hq hc
  have hap := applyFilter_patternError compile m m.filterQuery hfr
  have hup : updateFilter compile m .enter = { m with filterErr := true } := by
    unfold updateFilter
    rw [hap]
    simp
  exact ⟨hfr, by rw [hup], by rw [hup], by rw [hup], by rw [hup]; exact hm,
    by rw [hup], by rw [hup]⟩

theorem C5_pattern_error_state_witness :
    filterHostsRegex cfNone mC5.allHosts mC5.filterQuery = .patternError ∧
    (updateFilter cfNone mC5 .enter).hosts = mC5.hosts ∧
    (updateFilter cfNone mC5 .enter).cursor = mC5.cursor ∧
    (updateFilter cfNone mC5 .enter).lastValidRegex = mC5.lastValidRegex ∧
    (updateFilter cfNone mC5 .enter).filterActive = true ∧
    (updateFilter cfNone mC5 .enter).filterQuery = mC5.filterQuery ∧
    (updateFilter cfNone mC5 .enter).filterErr = true :=
  C5_pattern_error_state cfNone mC5 (by decide) rfl rfl

/-- C3 (amended): in filter-editing mode a rune-input event is appended to
the query exactly when the query's UTF-8 byte length is below the 256 cap
(so per-event growth is bounded, but the cap counts bytes, not characters,
and one event may carry several runes), and after each append the filter is
re-applied to the updated query; at or above 256 bytes the event is ignored. -/
theorem C3_rune_append (compile : String → Option Matcher) (m : Model) (s : String) :
    (updateFilter compile m (.runes s)).filterQuery =
      (if utf8Len m.filterQuery < 256 then m.filterQuery ++ s else m.filterQuery) ∧
    (utf8Len m.filterQuery < 256 →
      updateFilter compile m (.runes s) =
        applyFilter compile { m with filterQuery := m.filterQuery ++ s }
          (m.filterQuery ++ s)) ∧
    (¬ utf8Len m.filterQuery < 256 → updateFilter compile m (.runes s) = m) := by
  have hrw : updateFilter compile m (.runes s) =
      if utf8Len m.filterQuery < 256 then
        applyFilter compile { m with filterQuery := m.filterQuery ++ s } (m.filterQuery ++ s)
      else m := rfl
  refine ⟨?_, ?_, ?_⟩
  · rw [hrw]
    split
    · rw [applyFilter_filterQuery]
    · rfl
  · intro h
    rw [hrw, if_pos h]
  · intro h
    rw [hrw, if_neg h]

theorem C3_rune_append_witness :
    updateFilter cfNone mQ0 (FilterKey.runes "ab") =
      applyFilter cfNone { mQ0 with filterQuery := mQ0.filterQuery ++ "ab" }
        (mQ0.filterQuery ++ "ab") :=
  (C3_rune_append cfNone mQ0 "ab").2.1 (by decide)

set_option maxRecDepth 8192 in
/-- C3 counterexample: the cap counts bytes and an event may carry several
runes, so the claim's character-based reading fails both ways — a query of
128 two-byte characters (128 < 256 characters) rejects further input, and a
query of 255 one-byte characters grows to 257 characters on one two-rune
event. -/
theorem C3_counterexample :
    mQ128.filterQuery.length = 128 ∧
    (updateFilter cfNone mQ128 (FilterKey.runes "x")).filterQuery = mQ128.filterQuery ∧
    mQ255.filterQuery.length = 255 ∧
    (updateFilter cfNone mQ255 (FilterKey.runes "bc")).filterQuery.length = 257 := by
  refine ⟨by decide, by decide, by decide, by decide⟩

/-- C8: with a standalone comment on line 1, `Host prod` on line 3 and
`Host stage other` on line 6, the parser yields `prod` with sourceLine 3 and
both `stage` and `other` with sourceLine 6 (1-based line of the opening
Host directive), in declaration order. -/
theorem C8_source_lines (resolve : String → String) :
    (parseSSHConfig resolve "cfg"
      ["# top note", "", "Host prod", "  Hostname 127.0.0.1", "",
       "Host stage other", "  Hostname 127.0.0.1"]).map
        (fun h => (h.Alias, h.SourceLine)) =
      [("prod", 3), ("stage", 6), ("other", 6)] := rfl

/-- C7: host records are materialized only for aliases containing none of
`*`, `?`, `!`; committing a pending block whose aliases are all
wildcard/negation patterns adds no record while still resetting
(discarding) the block's accumulated directives and notes before the next
Host line. -/
theorem C7_wildcard_aliases (resolve : String → String) (path : String)
    (lines : List String) (acc : ParseAcc)
    (h1 : acc.aliases ≠ []) (h2 : ∀ a ∈ acc.aliases, containsWild a = true) :
    (∀ h ∈ parseSSHConfig resolve path lines, containsWild h.Alias = false) ∧
    commitBlock resolve path acc =
      { hosts := acc.hosts, aliases := [], fields := [],
        localForwards := [], notes := [], hostLine := 0 } := by
  refine ⟨?_, commitBlock_allWild resolve path acc h1 h2⟩
  intro h hm
  unfold parseSSHConfig at hm
  rcases mem_commitBlock_hosts _ _ _ _ hm with hin | hw
  · rcases mem_parse_foldl _ _ _ _ _ hin with hin2 | hw2
    · simp [initAcc] at hin2
    · exact hw2
  · exact hw

theorem C7_wildcard_aliases_witness :
    commitBlock noResolve "cfg" accW7 =
      { hosts := accW7.hosts, aliases := [], fields := [],
        localForwards := [], notes := [], hostLine := 0 } :=
  (C7_wildcard_aliases noResolve "cfg" [] accW7 (by decide) (by decide)).2

/-- C10: a commit with no pending aliases returns without resetting the
accumulators, so notes, field values and local-forward ports collected
before the first Host directive carry into the first block and appear on
every record it produces (a field overwritten inside the block takes the
overwriting value). -/
theorem C10_preamble_carryover (resolve : String → String) (path : String)
    (acc : ParseAcc) (h : acc.aliases = []) :
    commitBlock resolve path acc = acc ∧
    parseSSHConfig noResolve "cfg"
      ["# pre note", "Hostname pre.host", "Port 2200", "LocalForward 8080 dest:80",
       "Host a b", "Hostname real.host"] =
      [{ Alias := "a", Hostname := "real.host", IP := "", User := "", Port := "2200",
         LocalForwards := ["8080"], Notes := ["pre note"], SourcePath := "cfg",
         SourceLine := 5 },
       { Alias := "b", Hostname := "real.host", IP := "", User := "", Port := "2200",
         LocalForwards := ["8080"], Notes := ["pre note"], SourcePath := "cfg",
         SourceLine := 5 }] := by
  constructor
  · unfold commitBlock
    rw [if_pos h]
  · decide

theorem C10_preamble_carryover_witness :
    commitBlock noResolve "p" accW10 = accW10 :=
  (C10_preamble_carryover noResolve "p" accW10 rfl).1

/-- C1 (amended): a non-blank line that is not a standalone comment is split
at the first `'#'` unconditionally — there is no escape handling, so a `'#'`
preceded by a backslash still starts the comment — and the trimmed comment
part, if non-empty, is appended to pending notes regardless of whether the
directive part is empty; only the trimmed text before the `'#'` is processed
as a directive (an empty directive part processes nothing). -/
theorem C1_comment_split (resolve : String → String) (path : String) (acc : ParseAcc)
    (lineNo : Nat) (raw : String) (pre post : List Char)
    (h0 : trimChars raw.toList ≠ []) (h1 : (trimChars raw.toList).head? ≠ some '#')
    (h2 : splitAtFirstHash (trimChars raw.toList) = some (pre, post)) :
    processLine resolve path acc lineNo raw =
      (if trimChars pre = [] then noteAppend acc (trimChars post)
       else processDirective resolve path (noteAppend acc (trimChars post)) lineNo
         (trimChars pre)) ∧
    (noteAppend acc (trimChars post)).notes =
      (if trimChars post = [] then acc.notes
       else acc.notes ++ [String.mk (trimChars post)]) := by
  constructor
  · unfold processLine
    rw [if_neg h0, if_neg h1]
    simp only [h2]
  · unfold noteAppend
    split <;> simp_all

theorem C1_comment_split_witness :
    processLine noResolve "cfg" initAcc 1 "Hostname x # note" =
      (if trimChars ("Hostname x ".toList) = []
       then noteAppend initAcc (trimChars (" note".toList))
       else processDirective noResolve "cfg" (noteAppend initAcc (trimChars (" note".toList)))
         1 (trimChars ("Hostname x ".toList))) ∧
    (noteAppend initAcc (trimChars (" note".toList))).notes =
      (if trimChars (" note".toList) = [] then initAcc.notes
       else initAcc.notes ++ [String.mk (trimChars (" note".toList))]) :=
  C1_comment_split noResolve "cfg" initAcc 1 "Hostname x # note" ("Hostname x ".toList)
    (" note".toList) (by decide) (by decide) (by decide)

/-- C1 counterexample: in the line `Hostname foo\#bar` the `'#'` is preceded
by a backslash, yet the parser still splits there — the stored hostname is
the text up to (and including) the backslash and `bar` becomes a note, so an
escaped `'#'` IS treated as a comment delimiter. -/
theorem C1_counterexample :
    parseSSHConfig noResolve "cfg" ["Host a", "Hostname foo\\#bar"] =
      [{ Alias := "a", Hostname := "foo\\", IP := "", User := "", Port := "",
         LocalForwards := [], Notes := ["bar"], SourcePath := "cfg", SourceLine := 1 }] := by
  decide

lemma extractLastColon_of_some (a r : List Char) (hlc : afterLastColon a = some r)
    (hr : r ≠ []) : extractLastColon a = String.mk (trimChars r) := by
  simp only [extractLastColon, hlc]
  rw [if_pos hr]

lemma extractLastColon_whole (a : List Char)
    (h : ∀ r, afterLastColon a = some r → r = []) :
    extractLastColon a = String.mk a := by
  cases hlc : afterLastColon a with
  | none => simp only [extractLastColon, hlc]
  | some r =>
    have hr := h r hlc
    subst hr
    simp only [extractLastColon, hlc]
    simp

lemma extract_toLastColon (t : String) (h0 : trimChars t.toList ≠ [])
    (hbr : ∀ r2, afterBrColon (trimChars t.toList) = some r2 → r2 = []) :
    extractLocalForwardPort t = extractLastColon (trimChars t.toList) := by
  simp only [extractLocalForwardPort]
  rw [if_neg h0]
  cases habc : afterBrColon (trimChars t.toList) with
  | none => simp only [habc]
  | some r2 =>
    have hr2 := hbr r2 habc
    subst hr2
    simp only [habc]
    simp

/-- C2 (amended): the local-forward port extraction is — the trimmed text
after the first `"]:"` when at least one character follows it; otherwise the
trimmed text after the last `':'` when at least one character follows it;
otherwise the whole trimmed token, so a token whose last `':'` is final,
such as `[::1]:`, is returned whole rather than dropped; the localforward
handler drops only an empty extraction result.  `8080:localhost:9090`
extracts `9090` and `[::1]:2222` extracts `2222`. -/
theorem C2_extract_rule :
    extractLocalForwardPort "8080:localhost:9090" = "9090" ∧
    extractLocalForwardPort "[::1]:2222" = "2222" ∧
    extractLocalForwardPort "[::1]:" = "[::1]:" ∧
    (∀ t : String, ∀ pre r : List Char,
      trimChars t.toList = pre ++ ']' :: ':' :: r → hasBrColon pre = false → r ≠ [] →
      extractLocalForwardPort t = String.mk (trimChars r)) ∧
    (∀ t : String, ∀ pre r : List Char,
      (∀ r2, afterBrColon (trimChars t.toList) = some r2 → r2 = []) →
      trimChars t.toList = pre ++ ':' :: r → ':' ∉ r → r ≠ [] →
      extractLocalForwardPort t = String.mk (trimChars r)) ∧
    (∀ t : String,
      trimChars t.toList ≠ [] →
      (∀ r2, afterBrColon (trimChars t.toList) = some r2 → r2 = []) →
      (∀ pre r, trimChars t.toList = pre ++ ':' :: r → r = []) →
      extractLocalForwardPort t = String.mk (trimChars t.toList)) ∧
    (∀ (resolve : String → String) (path : String) (acc : ParseAcc) (lineNo : Nat)
       (line p0 p1 : List Char) (rest : List (List Char)),
      goFields line = p0 :: p1 :: rest →
      String.mk (p0.map lowerChar) = "localforward" →
      extractLocalForwardPort (String.mk (trimChars p1)) = "" →
      processDirective resolve path acc lineNo line = acc) := by
  refine ⟨by decide, by decide, by decide, ?_, ?_, ?_, ?_⟩
  · intro t pre r ht hpre hr
    have hbc : afterBrColon (trimChars t.toList) = some r := by
      rw [ht]; exact afterBrColon_append r pre hpre
    simp only [extractLocalForwardPort, hbc]
    rw [if_neg (by rw [ht]; simp), if_pos hr]
  · intro t pre r hbr ht hnr hr
    rw [extract_toLastColon t (by rw [ht]; simp) hbr, ht]
    exact extractLastColon_of_some _ r (afterLastColon_append r hnr pre) hr
  · intro t h0 hbr hnc
    rw [extract_toLastColon t h0 hbr]
    apply extractLastColon_whole
    intro r hlc
    obtain ⟨pre, hpre, _⟩ := afterLastColon_some _ r hlc
    exact hnc pre r hpre
  · intro resolve path acc lineNo line p0 p1 rest hgf hkey hex
    simp only [processDirective, hgf, hkey]
    rw [if_neg (by decide), if_neg (by decide), if_pos trivial, if_pos hex]

theorem C2_extract_rule_witness :
    extractLocalForwardPort "[a]:77" = String.mk (trimChars ("77".toList)) :=
  (C2_extract_rule).2.2.2.1 "[a]:77" ("[a".toList) ("77".toList)
    (by decide) (by decide) (by decide)

/-- C2 counterexample: for the token `[::1]:` the text after the last `':'`
is empty, yet the extraction returns the whole token (which is non-empty)
and the parser appends it to the block's local-forward list — the token does
NOT contribute nothing. -/
theorem C2_counterexample :
    extractLocalForwardPort "[::1]:" = "[::1]:" ∧
    (parseSSHConfig noResolve "cfg" ["Host a", "LocalForward [::1]: x"]).map
      (fun h => h.LocalForwards) = [["[::1]:"]] :=
  ⟨by decide, by decide⟩
